import Mathlib

/-!
Shallow embedding of the coroutine message bus in `src/1/corobus.cpp`.

The bus is a vector of channel slots (`std::vector<coro_bus_channel*>`,
modelled as `List (Option Channel)`).  Each channel holds a capacity
(`size_limit`), a FIFO message queue (`std::queue<unsigned>`, modelled as a
`List Nat` with the front at the head), two FIFO waiter lists (`rlist`s of
suspended coroutines, modelled as lists of coroutine ids), and a `closed`
flag.  The process-wide error slot (`global_error`) is carried in `GState`.

Scheduler effects (`coro_wakeup`, `coro_yield`) are recorded as an event
trace; `coro_suspend` appears as the `suspend` outcome of the one-iteration
step functions that model the blocking loops.  All operations are modelled
exactly as the source performs them between suspension points, which is
atomic under the single-threaded cooperative scheduler.
-/

namespace Corobus

/-- Error codes of `enum coro_bus_error_code`. -/
inductive ErrCode where
  | NONE
  | NO_CHANNEL
  | WOULD_BLOCK
deriving DecidableEq, Repr

/-- One channel, mirroring `struct coro_bus_channel`.  `send_queue` and
`recv_queue` hold the ids of the suspended coroutines linked into the
channel's waiter lists, in FIFO order (head = first to be woken). -/
structure Channel where
  size_limit : Nat
  send_queue : List Nat
  recv_queue : List Nat
  data : List Nat
  is_closed : Bool
deriving DecidableEq, Repr

/-- The bus, mirroring `struct coro_bus`: a vector of channel slots. -/
structure Bus where
  channels : List (Option Channel)
deriving DecidableEq, Repr

/-- Global state: the bus plus the process-wide error slot `global_error`. -/
structure GState where
  bus : Bus
  errno : ErrCode
deriving DecidableEq, Repr

/-- Scheduler-visible events emitted by an operation: `wake c` is a
`coro_wakeup` of coroutine `c`; `yld` is one `coro_yield`. -/
inductive Event where
  | wake (c : Nat)
  | yld
deriving DecidableEq, Repr

/-- The common id-validation of every operation: `channel < 0`, an index past
the end of the vector, and a `nullptr` slot all fail alike, so they are
merged into a single `none`. -/
def slotOf (bus : Bus) (channel : Int) : Option Channel :=
  if channel < 0 then none
  else (bus.channels.getD channel.toNat none)

/-- Overwrite slot `i` of the bus (in range whenever the caller has already
resolved the slot). -/
def setSlot (bus : Bus) (i : Nat) (c : Option Channel) : Bus :=
  ⟨bus.channels.set i c⟩

/-- Result of an operation returning `int` plus the new state and the
scheduler events it emitted. -/
structure OpRes where
  ret : Int
  st : GState
  evs : List Event
deriving DecidableEq, Repr

/-- Result of a receiving operation: `val` is the data written through the
out-parameter(s) (`none`/`[]` when the operation did not write). -/
structure RecvRes where
  ret : Int
  val : Option Nat
  st : GState
  evs : List Event
deriving DecidableEq, Repr

/-- Wake the head of a waiter list, if any (the `rlist_first_entry` +
`coro_wakeup` pattern).  Waking does not unlink: the woken coroutine
removes its own entry after it resumes. -/
def wakeHead : List Nat → List Event
  | [] => []
  | c :: _ => [Event.wake c]

/-- `coro_bus_try_send` (src/1/corobus.cpp:169-191). -/
def coro_bus_try_send (s : GState) (channel : Int) (v : Nat) : OpRes :=
  match slotOf s.bus channel with
  | none => ⟨-1, { s with errno := .NO_CHANNEL }, []⟩
  | some ch =>
    if ch.size_limit = ch.data.length then
      ⟨-1, { s with errno := .WOULD_BLOCK }, []⟩
    else
      let ch' := { ch with data := ch.data ++ [v] }
      ⟨0, { s with bus := setSlot s.bus channel.toNat (some ch') },
        wakeHead ch.recv_queue⟩

/-- `coro_bus_try_recv` (src/1/corobus.cpp:234-257). -/
def coro_bus_try_recv (s : GState) (channel : Int) : RecvRes :=
  match slotOf s.bus channel with
  | none => ⟨-1, none, { s with errno := .NO_CHANNEL }, []⟩
  | some ch =>
    match ch.data with
    | [] => ⟨-1, none, { s with errno := .WOULD_BLOCK }, []⟩
    | v :: rest =>
      let ch' := { ch with data := rest }
      ⟨0, some v, { s with bus := setSlot s.bus channel.toNat (some ch') },
        wakeHead ch.send_queue⟩

/-- `coro_bus_channel_open` (src/1/corobus.cpp:73-92): index of the lowest
empty slot, if any. -/
def firstEmptySlot : List (Option Channel) → Option Nat
  | [] => none
  | none :: _ => some 0
  | some _ :: rest => (firstEmptySlot rest).map (· + 1)

/-- The freshly allocated channel of `coro_bus_channel_open`. -/
def freshChannel (size_limit : Nat) : Channel :=
  ⟨size_limit, [], [], [], false⟩

/-- `coro_bus_channel_open` (src/1/corobus.cpp:73-92). -/
def coro_bus_channel_open (s : GState) (size_limit : Nat) : Int × GState :=
  match firstEmptySlot s.bus.channels with
  | some i => ((i : Int), { s with bus := setSlot s.bus i (some (freshChannel size_limit)) })
  | none => ((s.bus.channels.length : Int),
      { s with bus := ⟨s.bus.channels ++ [some (freshChannel size_limit)]⟩ })

/-- `coro_bus_channel_close` (src/1/corobus.cpp:94-126): no-op on an invalid
id or empty slot; otherwise wake every waiter of both lists (safe
traversal), yield once, then free the channel and empty the slot.  The
`is_closed := true` write is not visible in the final state because the
channel is destroyed before the operation returns. -/
def coro_bus_channel_close (s : GState) (channel : Int) : GState × List Event :=
  match slotOf s.bus channel with
  | none => (s, [])
  | some ch =>
    ({ s with bus := setSlot s.bus channel.toNat none },
      ch.send_queue.map Event.wake ++ ch.recv_queue.map Event.wake ++ [Event.yld])

/-- The live channels of the bus, in slot order: non-empty slots whose
channel is not closed (the channels `coro_bus_try_broadcast` acts on). -/
def liveChannels (bus : Bus) : List Channel :=
  (bus.channels.filterMap id).filter (fun ch => !ch.is_closed)

/-- The per-slot mutation of a successful broadcast: enqueue `v` on every
live channel, leave empty slots and closed channels alone. -/
def broadcastSlot (v : Nat) : Option Channel → Option Channel
  | none => none
  | some ch => if ch.is_closed then some ch else some { ch with data := ch.data ++ [v] }

/-- The wakeups of a successful broadcast: per live channel, the head of its
`recv_queue` if any. -/
def broadcastEvs (bus : Bus) : List Event :=
  bus.channels.foldr
    (fun o acc =>
      match o with
      | none => acc
      | some ch => (if ch.is_closed then [] else wakeHead ch.recv_queue) ++ acc) []

/-- `coro_bus_try_broadcast` (src/1/corobus.cpp:307-337).  The source's
single scan fails `WOULD_BLOCK` on the first full live channel and
`NO_CHANNEL` when the scan saw no live channel; only then does it mutate. -/
def coro_bus_try_broadcast (s : GState) (v : Nat) : OpRes :=
  if (liveChannels s.bus).any (fun ch => ch.size_limit ≤ ch.data.length) then
    ⟨-1, { s with errno := .WOULD_BLOCK }, []⟩
  else if liveChannels s.bus = [] then
    ⟨-1, { s with errno := .NO_CHANNEL }, []⟩
  else
    ⟨0, { s with bus := ⟨s.bus.channels.map (broadcastSlot v)⟩ }, broadcastEvs s.bus⟩

/-- The enqueue loop of `coro_bus_try_send_v` (src/1/corobus.cpp:397-401):
push elements of `buf` while the queue has not reached `limit`; return the
new queue and the count pushed (`send_c`). -/
def sendLoop (queue : List Nat) (limit : Nat) : List Nat → List Nat × Nat
  | [] => (queue, 0)
  | v :: rest =>
    if queue.length = limit then (queue, 0)
    else
      let r := sendLoop (queue ++ [v]) limit rest
      (r.1, r.2 + 1)

/-- `coro_bus_try_send_v` (src/1/corobus.cpp:384-409).  The C buffer and its
count are modelled as one `List Nat`. -/
def coro_bus_try_send_v (s : GState) (channel : Int) (buf : List Nat) : OpRes :=
  match slotOf s.bus channel with
  | none => ⟨-1, { s with errno := .NO_CHANNEL }, []⟩
  | some ch =>
    if ch.size_limit = ch.data.length then
      ⟨-1, { s with errno := .WOULD_BLOCK }, []⟩
    else
      let r := sendLoop ch.data ch.size_limit buf
      let ch' := { ch with data := r.1 }
      ⟨(r.2 : Int), { s with bus := setSlot s.bus channel.toNat (some ch') },
        wakeHead ch.recv_queue⟩

/-- The dequeue loop of `coro_bus_try_recv_v` (src/1/corobus.cpp:465-470):
pop into the out buffer while it has room (`capacity`) and the queue is
non-empty; return the values popped in order and the remaining queue. -/
def recvLoop (queue : List Nat) : Nat → List Nat × List Nat
  | 0 => ([], queue)
  | cap + 1 =>
    match queue with
    | [] => ([], [])
    | v :: rest =>
      let r := recvLoop rest cap
      (v :: r.1, r.2)

/-- Result of `coro_bus_try_recv_v`: `out` is the contents written to the
caller's buffer (its length is the return value on success). -/
structure RecvVRes where
  ret : Int
  out : List Nat
  st : GState
  evs : List Event
deriving DecidableEq, Repr

/-- `coro_bus_try_recv_v` (src/1/corobus.cpp:452-478). -/
def coro_bus_try_recv_v (s : GState) (channel : Int) (capacity : Nat) : RecvVRes :=
  match slotOf s.bus channel with
  | none => ⟨-1, [], { s with errno := .NO_CHANNEL }, []⟩
  | some ch =>
    if ch.data = [] then
      ⟨-1, [], { s with errno := .WOULD_BLOCK }, []⟩
    else
      let r := recvLoop ch.data capacity
      let ch' := { ch with data := r.2 }
      ⟨(r.1.length : Int), r.1, { s with bus := setSlot s.bus channel.toNat (some ch') },
        wakeHead ch.send_queue⟩

/-! ### Blocking operations, one loop iteration at a time

Each blocking operation is a condition loop whose body runs atomically
between suspension points.  A `StepOut` is the outcome of one iteration:
`ret` is a `return` from the operation (with the returned value, the state
and the events of that iteration), `suspend` is the path that links a
waiter for the current coroutine (`self`) into a waiter list and calls
`coro_suspend` (the unlink after resumption is a separate transition,
`Op.unlinkSend`/`Op.unlinkRecv` below). -/

inductive StepOut where
  | ret (r : Int) (st : GState) (evs : List Event)
  | suspend (st : GState)
deriving DecidableEq, Repr

/-- State reached by a step outcome. -/
def StepOut.state : StepOut → GState
  | .ret _ st _ => st
  | .suspend st => st

/-- Append `self` to the tail of the send-waiter list of the channel in slot
`i` (the `rlist_add_tail(&ch->send_queue.coros, ...)` before a suspend). -/
def linkSend (s : GState) (i : Nat) (self : Nat) : GState :=
  match s.bus.channels.getD i none with
  | none => s
  | some ch =>
    { s with bus := setSlot s.bus i (some { ch with send_queue := ch.send_queue ++ [self] }) }

/-- Append `self` to the tail of the recv-waiter list of the channel in slot
`i`. -/
def linkRecv (s : GState) (i : Nat) (self : Nat) : GState :=
  match s.bus.channels.getD i none with
  | none => s
  | some ch =>
    { s with bus := setSlot s.bus i (some { ch with recv_queue := ch.recv_queue ++ [self] }) }

/-- The defensive chain-wake after a successful blocking send
(src/1/corobus.cpp:159-162): wake the head sender if the list is non-empty
and there is free capacity. -/
def chainWakeSend (s : GState) (channel : Int) : List Event :=
  match slotOf s.bus channel with
  | none => []
  | some ch =>
    if ch.send_queue ≠ [] ∧ ch.data.length < ch.size_limit then wakeHead ch.send_queue else []

/-- The defensive chain-wake after a successful blocking recv
(src/1/corobus.cpp:224-227): wake the head receiver if the list is
non-empty and the queue is non-empty. -/
def chainWakeRecv (s : GState) (channel : Int) : List Event :=
  match slotOf s.bus channel with
  | none => []
  | some ch =>
    if ch.recv_queue ≠ [] ∧ 0 < ch.data.length then wakeHead ch.recv_queue else []

/-- One iteration of blocking `coro_bus_send` (src/1/corobus.cpp:128-166),
including the initial id validation (re-run harmlessly on later
iterations: the channel pointer captured before the loop stays valid while
the caller is inside the operation). -/
def coro_bus_send_step (s : GState) (channel : Int) (v : Nat) (self : Nat) : StepOut :=
  match slotOf s.bus channel with
  | none => .ret (-1) { s with errno := .NO_CHANNEL } []
  | some ch =>
    if ch.is_closed then .ret (-1) { s with errno := .NO_CHANNEL } []
    else
      let r := coro_bus_try_send s channel v
      if r.ret = -1 ∧ r.st.errno = .NO_CHANNEL then .ret (-1) r.st r.evs
      else if r.ret = -1 ∧ r.st.errno = .WOULD_BLOCK then
        .suspend (linkSend r.st channel.toNat self)
      else
        .ret 0 r.st (r.evs ++ chainWakeSend r.st channel)

/-- One iteration of blocking `coro_bus_recv` (src/1/corobus.cpp:193-231). -/
def coro_bus_recv_step (s : GState) (channel : Int) (self : Nat) : StepOut :=
  match slotOf s.bus channel with
  | none => .ret (-1) { s with errno := .NO_CHANNEL } []
  | some ch =>
    if ch.is_closed then .ret (-1) { s with errno := .NO_CHANNEL } []
    else
      let r := coro_bus_try_recv s channel
      if r.ret = -1 ∧ r.st.errno = .NO_CHANNEL then .ret (-1) r.st r.evs
      else if r.ret = -1 ∧ r.st.errno = .WOULD_BLOCK then
        .suspend (linkRecv r.st channel.toNat self)
      else
        .ret 0 r.st (r.evs ++ chainWakeRecv r.st channel)

/-- One iteration of blocking `coro_bus_send_v` (src/1/corobus.cpp:343-381). -/
def coro_bus_send_v_step (s : GState) (channel : Int) (buf : List Nat) (self : Nat) : StepOut :=
  match slotOf s.bus channel with
  | none => .ret (-1) { s with errno := .NO_CHANNEL } []
  | some ch =>
    if ch.is_closed then .ret (-1) { s with errno := .NO_CHANNEL } []
    else
      let r := coro_bus_try_send_v s channel buf
      if r.ret = -1 ∧ r.st.errno = .NO_CHANNEL then .ret (-1) r.st r.evs
      else if r.ret = -1 ∧ r.st.errno = .WOULD_BLOCK then
        .suspend (linkSend r.st channel.toNat self)
      else
        .ret r.ret r.st (r.evs ++ chainWakeSend r.st channel)

/-- One iteration of blocking `coro_bus_recv_v` (src/1/corobus.cpp:411-449). -/
def coro_bus_recv_v_step (s : GState) (channel : Int) (capacity : Nat) (self : Nat) : StepOut :=
  match slotOf s.bus channel with
  | none => .ret (-1) { s with errno := .NO_CHANNEL } []
  | some ch =>
    if ch.is_closed then .ret (-1) { s with errno := .NO_CHANNEL } []
    else
      let r := coro_bus_try_recv_v s channel capacity
      if r.ret = -1 ∧ r.st.errno = .NO_CHANNEL then .ret (-1) r.st r.evs
      else if r.ret = -1 ∧ r.st.errno = .WOULD_BLOCK then
        .suspend (linkRecv r.st channel.toNat self)
      else
        .ret r.ret r.st (r.evs ++ chainWakeRecv r.st channel)

/-- The full-live-channel scan of blocking `coro_bus_broadcast`
(src/1/corobus.cpp:276-282): the index of the first slot holding a
non-closed channel with `size_limit == data.size()`. -/
def findBlockingCh (bus : Bus) : Option Nat :=
  bus.channels.findIdx?
    (fun o =>
      match o with
      | none => false
      | some ch => !ch.is_closed && ch.size_limit == ch.data.length)

/-- The chain-wake after a successful blocking broadcast
(src/1/corobus.cpp:294-300): per channel with waiting senders and free
capacity, wake the head sender. -/
def broadcastChainWake (bus : Bus) : List Event :=
  bus.channels.foldr
    (fun o acc =>
      match o with
      | none => acc
      | some ch =>
        (if ch.send_queue ≠ [] ∧ ch.data.length < ch.size_limit
          then wakeHead ch.send_queue else []) ++ acc) []

/-- One iteration of blocking `coro_bus_broadcast` (src/1/corobus.cpp:262-304).
On `WOULD_BLOCK` the broadcaster parks on the first full live channel; if
the rescan finds none it returns `-1` with the error slot still holding
`WOULD_BLOCK` (dead code while queues respect their capacity). -/
def coro_bus_broadcast_step (s : GState) (v : Nat) (self : Nat) : StepOut :=
  let r := coro_bus_try_broadcast s v
  if r.ret = -1 ∧ r.st.errno = .NO_CHANNEL then .ret (-1) r.st r.evs
  else if r.ret = -1 ∧ r.st.errno = .WOULD_BLOCK then
    match findBlockingCh r.st.bus with
    | none => .ret (-1) r.st r.evs
    | some i => .suspend (linkSend r.st i self)
  else
    .ret 0 r.st (r.evs ++ broadcastChainWake r.st.bus)

/-! ### The transition system

`Op` enumerates every state transition the bus code can perform: the try
operations, open and close, one iteration of each blocking loop, and the
self-unlink a woken waiter performs right after it resumes
(`rlist_del(&we.base)`). -/

inductive Op where
  | openCh (size_limit : Nat)
  | close (channel : Int)
  | trySend (channel : Int) (v : Nat)
  | tryRecv (channel : Int)
  | tryBroadcast (v : Nat)
  | trySendV (channel : Int) (buf : List Nat)
  | tryRecvV (channel : Int) (capacity : Nat)
  | sendStep (channel : Int) (v : Nat) (self : Nat)
  | recvStep (channel : Int) (self : Nat)
  | sendVStep (channel : Int) (buf : List Nat) (self : Nat)
  | recvVStep (channel : Int) (capacity : Nat) (self : Nat)
  | broadcastStep (v : Nat) (self : Nat)
  | unlinkSend (channel : Int) (self : Nat)
  | unlinkRecv (channel : Int) (self : Nat)
deriving DecidableEq, Repr

/-- Remove a waiter from the send-waiter list of the channel in slot
`channel` (the woken coroutine's `rlist_del` after resumption). -/
def unlinkSendOp (s : GState) (channel : Int) (self : Nat) : GState :=
  match slotOf s.bus channel with
  | none => s
  | some ch =>
    let ch' := { ch with send_queue := ch.send_queue.erase self }
    { s with bus := setSlot s.bus channel.toNat (some ch') }

/-- Remove a waiter from the recv-waiter list of the channel in slot
`channel`. -/
def unlinkRecvOp (s : GState) (channel : Int) (self : Nat) : GState :=
  match slotOf s.bus channel with
  | none => s
  | some ch =>
    let ch' := { ch with recv_queue := ch.recv_queue.erase self }
    { s with bus := setSlot s.bus channel.toNat (some ch') }

/-- The state after performing one operation (whatever branch it takes). -/
def applyOp (s : GState) : Op → GState
  | .openCh limit => (coro_bus_channel_open s limit).2
  | .close channel => (coro_bus_channel_close s channel).1
  | .trySend channel v => (coro_bus_try_send s channel v).st
  | .tryRecv channel => (coro_bus_try_recv s channel).st
  | .tryBroadcast v => (coro_bus_try_broadcast s v).st
  | .trySendV channel buf => (coro_bus_try_send_v s channel buf).st
  | .tryRecvV channel capacity => (coro_bus_try_recv_v s channel capacity).st
  | .sendStep channel v self => (coro_bus_send_step s channel v self).state
  | .recvStep channel self => (coro_bus_recv_step s channel self).state
  | .sendVStep channel buf self => (coro_bus_send_v_step s channel buf self).state
  | .recvVStep channel capacity self => (coro_bus_recv_v_step s channel capacity self).state
  | .broadcastStep v self => (coro_bus_broadcast_step s v self).state
  | .unlinkSend channel self => unlinkSendOp s channel self
  | .unlinkRecv channel self => unlinkRecvOp s channel self

/-- The state of a freshly created bus (`coro_bus_new`): no slots, error
slot at its initial `CORO_BUS_ERR_NONE`. -/
def initState : GState := ⟨⟨[]⟩, .NONE⟩

/-- States reachable from a fresh bus by any sequence of bus operations. -/
inductive Reachable : GState → Prop where
  | init : Reachable initState
  | step (s : GState) (op : Op) : Reachable s → Reachable (applyOp s op)

/-- The bounded-queue invariant I1 for one slot. -/
def slotInv (o : Option Channel) : Prop :=
  ∀ ch, o = some ch → ch.data.length ≤ ch.size_limit

/-- The bounded-queue invariant I1: every channel's queue length is at most
its capacity. -/
def busInv (bus : Bus) : Prop :=
  ∀ o ∈ bus.channels, slotInv o

/-! ### Helper lemmas about slots -/

theorem slotOf_eq (bus : Bus) (channel : Int) :
    slotOf bus channel =
      if channel < 0 then none else (bus.channels[channel.toNat]?).getD none := by
  simp [slotOf, List.getD_eq_getElem?_getD]

theorem slotOf_some_nonneg {bus : Bus} {channel : Int} {ch : Channel}
    (h : slotOf bus channel = some ch) : 0 ≤ channel := by
  rw [slotOf_eq] at h
  by_contra hneg
  simp [show channel < 0 by omega] at h

theorem slotOf_some_getElem {bus : Bus} {channel : Int} {ch : Channel}
    (h : slotOf bus channel = some ch) :
    bus.channels[channel.toNat]? = some (some ch) := by
  rw [slotOf_eq] at h
  have hneg : ¬ channel < 0 := by
    by_contra hc
    simp [hc] at h
  rw [if_neg hneg] at h
  cases hx : bus.channels[channel.toNat]? with
  | none => rw [hx] at h; simp at h
  | some o => rw [hx] at h; simp at h; rw [h]

theorem slotOf_some_lt {bus : Bus} {channel : Int} {ch : Channel}
    (h : slotOf bus channel = some ch) : channel.toNat < bus.channels.length := by
  have := slotOf_some_getElem h
  rcases List.getElem?_eq_some.mp this with ⟨hlt, _⟩
  exact hlt

theorem slotOf_some_mem {bus : Bus} {channel : Int} {ch : Channel}
    (h : slotOf bus channel = some ch) : some ch ∈ bus.channels := by
  have := slotOf_some_getElem h
  rcases List.getElem?_eq_some.mp this with ⟨hlt, hg⟩
  exact hg ▸ List.getElem_mem hlt

theorem slotOf_setSlot_self {bus : Bus} {channel : Int} {ch : Channel}
    (c : Option Channel) (h : slotOf bus channel = some ch) :
    slotOf (setSlot bus channel.toNat c) channel = c := by
  have hnn := slotOf_some_nonneg h
  have hlt := slotOf_some_lt h
  rw [slotOf_eq]
  rw [if_neg (by omega)]
  simp [setSlot, List.getElem?_set_self hlt]

theorem slotOf_setSlot_ne {bus : Bus} {channel : Int} {ch : Channel} {j : Int}
    (c : Option Channel) (h : slotOf bus channel = some ch) (hj : j ≠ channel) :
    slotOf (setSlot bus channel.toNat c) j = slotOf bus j := by
  have hnn := slotOf_some_nonneg h
  rw [slotOf_eq, slotOf_eq]
  by_cases hjneg : j < 0
  · simp [hjneg]
  · rw [if_neg hjneg, if_neg hjneg]
    have : channel.toNat ≠ j.toNat := by omega
    simp [setSlot, List.getElem?_set_ne this]

theorem busInv_setSlot {bus : Bus} {i : Nat} {c : Option Channel}
    (hinv : busInv bus) (hc : slotInv c) : busInv (setSlot bus i c) := by
  intro o ho
  rcases List.mem_or_eq_of_mem_set ho with hmem | rfl
  · exact hinv o hmem
  · exact hc

theorem busInv_some {bus : Bus} {channel : Int} {ch : Channel}
    (hinv : busInv bus) (h : slotOf bus channel = some ch) :
    ch.data.length ≤ ch.size_limit :=
  hinv (some ch) (slotOf_some_mem h) ch rfl

/-! ### Loop lemmas -/

theorem sendLoop_spec (limit : Nat) (buf : List Nat) :
    ∀ queue : List Nat, queue.length ≤ limit →
      sendLoop queue limit buf =
        (queue ++ buf.take (min buf.length (limit - queue.length)),
          min buf.length (limit - queue.length)) := by
  induction buf with
  | nil => intro queue _; simp [sendLoop]
  | cons v rest ih =>
    intro queue hq
    rw [sendLoop]
    by_cases hfull : queue.length = limit
    · rw [if_pos hfull]
      simp [hfull]
    · rw [if_neg hfull]
      have hlt : queue.length < limit := by omega
      have h' : (queue ++ [v]).length ≤ limit := by simp; omega
      rw [ih (queue ++ [v]) h']
      have hlen : (queue ++ [v]).length = queue.length + 1 := by simp
      rw [hlen]
      have hmin : min (rest.length + 1) (limit - queue.length) =
          min rest.length (limit - (queue.length + 1)) + 1 := by omega
      simp only [List.length_cons, hmin, List.take_succ_cons, List.append_assoc,
        List.singleton_append]

theorem recvLoop_spec (cap : Nat) :
    ∀ queue : List Nat, recvLoop queue cap = (queue.take cap, queue.drop cap) := by
  induction cap with
  | zero => intro queue; simp [recvLoop]
  | succ c ih =>
    intro queue
    cases queue with
    | nil => simp [recvLoop]
    | cons v rest => simp [recvLoop, ih rest]

/-! ### Live-channel lemmas -/

theorem mem_liveChannels {bus : Bus} {ch : Channel} :
    ch ∈ liveChannels bus ↔ some ch ∈ bus.channels ∧ ch.is_closed = false := by
  simp only [liveChannels, List.mem_filter, List.mem_filterMap, id]
  constructor
  · rintro ⟨⟨o, ho, rfl⟩, hcl⟩
    exact ⟨ho, by simpa using hcl⟩
  · rintro ⟨hmem, hcl⟩
    exact ⟨⟨some ch, hmem, rfl⟩, by simpa using hcl⟩

theorem liveChannels_nil_iff {bus : Bus} :
    liveChannels bus = [] ↔ ∀ ch : Channel, some ch ∈ bus.channels → ch.is_closed = true := by
  rw [List.eq_nil_iff_forall_not_mem]
  constructor
  · intro h ch hmem
    by_contra hcl
    exact h ch (mem_liveChannels.mpr ⟨hmem, by simpa using hcl⟩)
  · intro h ch hmem
    rcases mem_liveChannels.mp hmem with ⟨hm, hcl⟩
    rw [h ch hm] at hcl
    exact absurd hcl (by simp)

theorem liveChannels_any_full_iff {bus : Bus} :
    ((liveChannels bus).any fun ch => ch.size_limit ≤ ch.data.length) = true ↔
      ∃ ch : Channel, some ch ∈ bus.channels ∧ ch.is_closed = false ∧
        ch.size_limit ≤ ch.data.length := by
  rw [List.any_eq_true]
  constructor
  · rintro ⟨ch, hmem, hp⟩
    rcases mem_liveChannels.mp hmem with ⟨hm, hcl⟩
    exact ⟨ch, hm, hcl, by simpa using hp⟩
  · rintro ⟨ch, hm, hcl, hfull⟩
    exact ⟨ch, mem_liveChannels.mpr ⟨hm, hcl⟩, by simpa using hfull⟩

theorem slotOf_setSlot_self' (bus : Bus) (i : Nat) (c : Option Channel)
    (hi : i < bus.channels.length) : slotOf (setSlot bus i c) (i : Int) = c := by
  rw [slotOf_eq]
  rw [if_neg (by omega)]
  simp [setSlot, List.getElem?_set_self hi]

theorem slotOf_setSlot_ne' (bus : Bus) (i : Nat) (c : Option Channel) (j : Int)
    (hj : j ≠ (i : Int)) : slotOf (setSlot bus i c) j = slotOf bus j := by
  rw [slotOf_eq, slotOf_eq]
  by_cases hjneg : j < 0
  · simp [hjneg]
  · rw [if_neg hjneg, if_neg hjneg]
    have : i ≠ j.toNat := by omega
    simp [setSlot, List.getElem?_set_ne this]

/-! ### Claim theorems -/

/-- C1, counterexample: on a bus whose channel 0 is closed (capacity 2, empty
queue), `coro_bus_try_send` does not fail with `NO_CHANNEL` — it returns 0
and enqueues the value, because the source's `coro_bus_try_send` never
consults `is_closed`. -/
theorem C1_counterexample :
    (coro_bus_try_send ⟨⟨[some ⟨2, [], [], [], true⟩]⟩, .NONE⟩ 0 7).ret = 0 ∧
    (coro_bus_try_send ⟨⟨[some ⟨2, [], [], [], true⟩]⟩, .NONE⟩ 0 7).st.bus.channels =
      [some ⟨2, [], [], [7], true⟩] ∧
    (coro_bus_try_send ⟨⟨[some ⟨2, [], [], [], true⟩]⟩, .NONE⟩ 0 7).st.errno ≠
      ErrCode.NO_CHANNEL := by
  decide

/-- C1, amended: `coro_bus_try_send` does not consult the closed flag.  On a
valid channel id whose channel is closed it fails `WOULD_BLOCK` (without
enqueueing) exactly when the queue is full, and otherwise enqueues `v` and
returns 0. -/
theorem C1_amended (s : GState) (channel : Int) (v : Nat) (ch : Channel)
    (hch : slotOf s.bus channel = some ch) (hcl : ch.is_closed = true) :
    (ch.data.length = ch.size_limit →
      coro_bus_try_send s channel v = ⟨-1, { s with errno := .WOULD_BLOCK }, []⟩) ∧
    (ch.data.length ≠ ch.size_limit →
      (coro_bus_try_send s channel v).ret = 0 ∧
      slotOf (coro_bus_try_send s channel v).st.bus channel =
        some { ch with data := ch.data ++ [v] }) := by
  constructor
  · intro hfull
    simp [coro_bus_try_send, hch, hfull.symm]
  · intro hnf
    have hne : ¬ ch.size_limit = ch.data.length := fun h => hnf h.symm
    refine ⟨by simp [coro_bus_try_send, hch, hne], ?_⟩
    simp only [coro_bus_try_send, hch]
    rw [if_neg hne]
    exact slotOf_setSlot_self _ hch

/-- C1 witness: the amended theorem evaluated on a closed, full, capacity-1
channel. -/
theorem C1_witness :
    coro_bus_try_send ⟨⟨[some ⟨1, [], [], [4], true⟩]⟩, .NONE⟩ 0 7 =
      ⟨-1, ⟨⟨[some ⟨1, [], [], [4], true⟩]⟩, .WOULD_BLOCK⟩, []⟩ :=
  (C1_amended ⟨⟨[some ⟨1, [], [], [4], true⟩]⟩, .NONE⟩ 0 7 ⟨1, [], [], [4], true⟩
    (by decide) (by decide)).1 (by decide)

/-- C2, counterexample: on a closed channel with an empty queue,
`coro_bus_try_recv` fails with `WOULD_BLOCK`, not `NO_CHANNEL`: the source
returns `WOULD_BLOCK` whenever the queue is empty, closed or not. -/
theorem C2_counterexample :
    (coro_bus_try_recv ⟨⟨[some ⟨2, [], [], [], true⟩]⟩, .NONE⟩ 0).ret = -1 ∧
    (coro_bus_try_recv ⟨⟨[some ⟨2, [], [], [], true⟩]⟩, .NONE⟩ 0).st.errno =
      ErrCode.WOULD_BLOCK ∧
    (coro_bus_try_recv ⟨⟨[some ⟨2, [], [], [], true⟩]⟩, .NONE⟩ 0).st.errno ≠
      ErrCode.NO_CHANNEL := by
  decide

/-- C2, amended: on a valid channel id whose channel's queue is empty,
`coro_bus_try_recv` fails with `WOULD_BLOCK` whether or not the channel is
closed; it returns -1, writes nothing to the out-parameter, changes no
channel state and emits no wakeup. -/
theorem C2_amended (s : GState) (channel : Int) (ch : Channel)
    (hch : slotOf s.bus channel = some ch) (hempty : ch.data = []) :
    coro_bus_try_recv s channel = ⟨-1, none, { s with errno := .WOULD_BLOCK }, []⟩ := by
  simp [coro_bus_try_recv, hch, hempty]

/-- C2 witness: the amended theorem evaluated on a closed empty channel. -/
theorem C2_witness :
    coro_bus_try_recv ⟨⟨[some ⟨2, [], [], [], true⟩]⟩, .NONE⟩ 0 =
      ⟨-1, none, ⟨⟨[some ⟨2, [], [], [], true⟩]⟩, .WOULD_BLOCK⟩, []⟩ :=
  C2_amended ⟨⟨[some ⟨2, [], [], [], true⟩]⟩, .NONE⟩ 0 ⟨2, [], [], [], true⟩
    (by decide) (by decide)

/-- C6, counterexample: on a closed channel (capacity 2, empty queue),
`coro_bus_try_send_v` does not fail with `NO_CHANNEL` — it enqueues and
returns 1, because the source's `coro_bus_try_send_v` never consults
`is_closed`. -/
theorem C6_counterexample :
    (coro_bus_try_send_v ⟨⟨[some ⟨2, [], [], [], true⟩]⟩, .NONE⟩ 0 [5]).ret = 1 ∧
    (coro_bus_try_send_v ⟨⟨[some ⟨2, [], [], [], true⟩]⟩, .NONE⟩ 0 [5]).st.bus.channels =
      [some ⟨2, [], [], [5], true⟩] ∧
    (coro_bus_try_send_v ⟨⟨[some ⟨2, [], [], [], true⟩]⟩, .NONE⟩ 0 [5]).st.errno ≠
      ErrCode.NO_CHANNEL := by
  decide

/-- C6, amended: for every valid channel id (the closed flag is not
consulted) with `len_before < capacity` and non-empty buffer,
`coro_bus_try_send_v` returns `k = min(n, capacity - len_before) ≥ 1`,
appends exactly the first `k` buffer values in order, leaves every other
slot and the error slot unchanged; if `len_before = capacity` it fails
`WOULD_BLOCK` with no mutation (even on a closed channel). -/
theorem C6_amended (s : GState) (channel : Int) (ch : Channel) (buf : List Nat)
    (hch : slotOf s.bus channel = some ch) :
    (ch.data.length < ch.size_limit → buf ≠ [] →
      (coro_bus_try_send_v s channel buf).ret =
        ((min buf.length (ch.size_limit - ch.data.length) : Nat) : Int) ∧
      1 ≤ min buf.length (ch.size_limit - ch.data.length) ∧
      slotOf (coro_bus_try_send_v s channel buf).st.bus channel =
        some { ch with data :=
          ch.data ++ buf.take (min buf.length (ch.size_limit - ch.data.length)) } ∧
      (∀ j : Int, j ≠ channel →
        slotOf (coro_bus_try_send_v s channel buf).st.bus j = slotOf s.bus j) ∧
      (coro_bus_try_send_v s channel buf).st.errno = s.errno) ∧
    (ch.data.length = ch.size_limit →
      coro_bus_try_send_v s channel buf = ⟨-1, { s with errno := .WOULD_BLOCK }, []⟩) := by
  constructor
  · intro hlt hbuf
    have hne : ¬ ch.size_limit = ch.data.length := by omega
    have hspec := sendLoop_spec ch.size_limit buf ch.data (by omega)
    have hpos : 0 < buf.length := List.length_pos.mpr hbuf
    refine ⟨?_, by omega, ?_, ?_, ?_⟩
    · simp [coro_bus_try_send_v, hch, hne, hspec]
    · simp only [coro_bus_try_send_v, hch]
      rw [if_neg hne]
      rw [slotOf_setSlot_self _ hch]
      simp [hspec]
    · intro j hj
      simp only [coro_bus_try_send_v, hch]
      rw [if_neg hne]
      exact slotOf_setSlot_ne _ hch hj
    · simp only [coro_bus_try_send_v, hch]
      rw [if_neg hne]
  · intro hfull
    simp [coro_bus_try_send_v, hch, hfull.symm]

/-- C6 witness: the amended theorem applied to a capacity-3 channel holding
one value and a 5-element buffer (`k = 2`). -/
theorem C6_witness :
    (coro_bus_try_send_v ⟨⟨[some ⟨3, [], [], [9], false⟩]⟩, .NONE⟩ 0 [1, 2, 3, 4, 5]).ret = 2 ∧
    slotOf (coro_bus_try_send_v ⟨⟨[some ⟨3, [], [], [9], false⟩]⟩, .NONE⟩ 0
        [1, 2, 3, 4, 5]).st.bus 0 = some ⟨3, [], [], [9, 1, 2], false⟩ :=
  have h := (C6_amended ⟨⟨[some ⟨3, [], [], [9], false⟩]⟩, .NONE⟩ 0
    ⟨3, [], [], [9], false⟩ [1, 2, 3, 4, 5] (by decide)).1 (by decide) (by decide)
  ⟨h.1, h.2.2.1⟩

/-- The error-slot discipline of one operation: a failing return (-1) has
set the slot to one of the two failure reasons; a non-failing return has
left the slot exactly as it was. -/
def errnoContract (oldErr : ErrCode) (ret : Int) (newErr : ErrCode) : Prop :=
  (ret = -1 → newErr = .NO_CHANNEL ∨ newErr = .WOULD_BLOCK) ∧
  (ret ≠ -1 → newErr = oldErr)

/-- C9, counterexample: the error slot is not cleared by the next successful
operation.  On a full capacity-1 channel, `try_send` fails with
`WOULD_BLOCK`; the following `try_recv` succeeds (returns 0) yet the error
slot still holds `WOULD_BLOCK`, not `NONE`. -/
theorem C9_counterexample :
    (coro_bus_try_recv
      (coro_bus_try_send ⟨⟨[some ⟨1, [], [], [5], false⟩]⟩, .NONE⟩ 0 9).st 0).ret = 0 ∧
    (coro_bus_try_recv
      (coro_bus_try_send ⟨⟨[some ⟨1, [], [], [5], false⟩]⟩, .NONE⟩ 0 9).st 0).st.errno =
      ErrCode.WOULD_BLOCK ∧
    (coro_bus_try_recv
      (coro_bus_try_send ⟨⟨[some ⟨1, [], [], [5], false⟩]⟩, .NONE⟩ 0 9).st 0).st.errno ≠
      ErrCode.NONE := by
  decide

/-- The error slot is untouched by linking a send-waiter. -/
theorem linkSend_errno (s : GState) (i : Nat) (self : Nat) :
    (linkSend s i self).errno = s.errno := by
  unfold linkSend
  cases s.bus.channels.getD i none <;> rfl

/-- The error slot is untouched by linking a recv-waiter. -/
theorem linkRecv_errno (s : GState) (i : Nat) (self : Nat) :
    (linkRecv s i self).errno = s.errno := by
  unfold linkRecv
  cases s.bus.channels.getD i none <;> rfl

/-- C9, amended: every operation path that fails sets the error slot to its
failure reason (`NO_CHANNEL` or `WOULD_BLOCK`, never `NONE`) before
returning -1.  The slot is never cleared on success: the try-operations,
`channel_open` and `channel_close` leave it unchanged on non-failing
returns, and each iteration of a blocking operation leaves it unchanged
when it returns a non-negative result — while an iteration that suspends
leaves `WOULD_BLOCK` in the slot.  Hence a blocking call that blocked
before succeeding returns success with the slot holding the `WOULD_BLOCK`
of its own earlier attempt, not the pre-call value, and no success path
ever resets the slot to `NONE`. -/
theorem C9_amended (s : GState) (channel : Int) (v : Nat) (buf : List Nat)
    (cap : Nat) (limit : Nat) (self : Nat) :
    errnoContract s.errno (coro_bus_try_send s channel v).ret
      (coro_bus_try_send s channel v).st.errno ∧
    errnoContract s.errno (coro_bus_try_recv s channel).ret
      (coro_bus_try_recv s channel).st.errno ∧
    errnoContract s.errno (coro_bus_try_broadcast s v).ret
      (coro_bus_try_broadcast s v).st.errno ∧
    errnoContract s.errno (coro_bus_try_send_v s channel buf).ret
      (coro_bus_try_send_v s channel buf).st.errno ∧
    errnoContract s.errno (coro_bus_try_recv_v s channel cap).ret
      (coro_bus_try_recv_v s channel cap).st.errno ∧
    (coro_bus_channel_open s limit).2.errno = s.errno ∧
    (coro_bus_channel_close s channel).1.errno = s.errno ∧
    (∀ r st evs, coro_bus_send_step s channel v self = .ret r st evs →
      errnoContract s.errno r st.errno) ∧
    (∀ st, coro_bus_send_step s channel v self = .suspend st →
      st.errno = .WOULD_BLOCK) ∧
    (∀ r st evs, coro_bus_recv_step s channel self = .ret r st evs →
      errnoContract s.errno r st.errno) ∧
    (∀ st, coro_bus_recv_step s channel self = .suspend st →
      st.errno = .WOULD_BLOCK) ∧
    (∀ r st evs, coro_bus_send_v_step s channel buf self = .ret r st evs →
      errnoContract s.errno r st.errno) ∧
    (∀ st, coro_bus_send_v_step s channel buf self = .suspend st →
      st.errno = .WOULD_BLOCK) ∧
    (∀ r st evs, coro_bus_recv_v_step s channel cap self = .ret r st evs →
      errnoContract s.errno r st.errno) ∧
    (∀ st, coro_bus_recv_v_step s channel cap self = .suspend st →
      st.errno = .WOULD_BLOCK) ∧
    (∀ r st evs, coro_bus_broadcast_step s v self = .ret r st evs →
      errnoContract s.errno r st.errno) ∧
    (∀ st, coro_bus_broadcast_step s v self = .suspend st →
      st.errno = .WOULD_BLOCK) := by
  refine ⟨?_, ?_, ?_, ?_, ?_, ?_, ?_, ?_, ?_, ?_, ?_, ?_, ?_, ?_, ?_, ?_, ?_⟩
  · cases hch : slotOf s.bus channel with
    | none => simp [errnoContract, coro_bus_try_send, hch]
    | some ch =>
      by_cases hfull : ch.size_limit = ch.data.length
      · simp [errnoContract, coro_bus_try_send, hch, hfull]
      · simp [errnoContract, coro_bus_try_send, hch, hfull]
  · cases hch : slotOf s.bus channel with
    | none => simp [errnoContract, coro_bus_try_recv, hch]
    | some ch =>
      cases hdata : ch.data with
      | nil => simp [errnoContract, coro_bus_try_recv, hch, hdata]
      | cons a rest => simp [errnoContract, coro_bus_try_recv, hch, hdata]
  · by_cases hany : ((liveChannels s.bus).any fun ch => ch.size_limit ≤ ch.data.length) = true
    · simp [errnoContract, coro_bus_try_broadcast, hany]
    · by_cases hnil : liveChannels s.bus = []
      · simp [errnoContract, coro_bus_try_broadcast, hany, hnil]
      · simp [errnoContract, coro_bus_try_broadcast, hany, hnil]
  · cases hch : slotOf s.bus channel with
    | none => simp [errnoContract, coro_bus_try_send_v, hch]
    | some ch =>
      by_cases hfull : ch.size_limit = ch.data.length
      · simp [errnoContract, coro_bus_try_send_v, hch, hfull]
      · have : ((sendLoop ch.data ch.size_limit buf).2 : Int) ≠ -1 := by omega
        simp [errnoContract, coro_bus_try_send_v, hch, hfull, this]
  · cases hch : slotOf s.bus channel with
    | none => simp [errnoContract, coro_bus_try_recv_v, hch]
    | some ch =>
      by_cases hdata : ch.data = []
      · simp [errnoContract, coro_bus_try_recv_v, hch, hdata]
      · have : (((recvLoop ch.data cap).1.length : Nat) : Int) ≠ -1 := by omega
        simp [errnoContract, coro_bus_try_recv_v, hch, hdata, this]
  · cases hfe : firstEmptySlot s.bus.channels with
    | none => simp [coro_bus_channel_open, hfe]
    | some i => simp [coro_bus_channel_open, hfe]
  · cases hch : slotOf s.bus channel with
    | none => simp [coro_bus_channel_close, hch]
    | some ch => simp [coro_bus_channel_close, hch]
  · intro r st evs hstep
    cases hch : slotOf s.bus channel with
    | none =>
      simp [coro_bus_send_step, hch] at hstep
      obtain ⟨hr, hst, -⟩ := hstep
      subst hr
      subst hst
      exact ⟨fun _ => Or.inl rfl, fun hne => absurd rfl hne⟩
    | some ch =>
      by_cases hcl : ch.is_closed
      · simp [coro_bus_send_step, hch, hcl] at hstep
        obtain ⟨hr, hst, -⟩ := hstep
        subst hr
        subst hst
        exact ⟨fun _ => Or.inl rfl, fun hne => absurd rfl hne⟩
      · by_cases hfull : ch.size_limit = ch.data.length
        · simp [coro_bus_send_step, coro_bus_try_send, hch, hcl, hfull] at hstep
        · simp [coro_bus_send_step, coro_bus_try_send, hch, hcl, hfull] at hstep
          obtain ⟨hr, hst, -⟩ := hstep
          subst hr
          subst hst
          exact ⟨fun h => absurd h (by decide), fun _ => rfl⟩
  · intro st hstep
    cases hch : slotOf s.bus channel with
    | none => simp [coro_bus_send_step, hch] at hstep
    | some ch =>
      by_cases hcl : ch.is_closed
      · simp [coro_bus_send_step, hch, hcl] at hstep
      · by_cases hfull : ch.size_limit = ch.data.length
        · simp [coro_bus_send_step, coro_bus_try_send, hch, hcl, hfull] at hstep
          subst hstep
          rw [linkSend_errno]
        · simp [coro_bus_send_step, coro_bus_try_send, hch, hcl, hfull] at hstep
  · intro r st evs hstep
    cases hch : slotOf s.bus channel with
    | none =>
      simp [coro_bus_recv_step, hch] at hstep
      obtain ⟨hr, hst, -⟩ := hstep
      subst hr
      subst hst
      exact ⟨fun _ => Or.inl rfl, fun hne => absurd rfl hne⟩
    | some ch =>
      by_cases hcl : ch.is_closed
      · simp [coro_bus_recv_step, hch, hcl] at hstep
        obtain ⟨hr, hst, -⟩ := hstep
        subst hr
        subst hst
        exact ⟨fun _ => Or.inl rfl, fun hne => absurd rfl hne⟩
      · cases hdata : ch.data with
        | nil => simp [coro_bus_recv_step, coro_bus_try_recv, hch, hcl, hdata] at hstep
        | cons a rest =>
          simp [coro_bus_recv_step, coro_bus_try_recv, hch, hcl, hdata] at hstep
          obtain ⟨hr, hst, -⟩ := hstep
          subst hr
          subst hst
          exact ⟨fun h => absurd h (by decide), fun _ => rfl⟩
  · intro st hstep
    cases hch : slotOf s.bus channel with
    | none => simp [coro_bus_recv_step, hch] at hstep
    | some ch =>
      by_cases hcl : ch.is_closed
      · simp [coro_bus_recv_step, hch, hcl] at hstep
      · cases hdata : ch.data with
        | nil =>
          simp [coro_bus_recv_step, coro_bus_try_recv, hch, hcl, hdata] at hstep
          subst hstep
          rw [linkRecv_errno]
        | cons a rest =>
          simp [coro_bus_recv_step, coro_bus_try_recv, hch, hcl, hdata] at hstep
  · intro r st evs hstep
    cases hch : slotOf s.bus channel with
    | none =>
      simp [coro_bus_send_v_step, hch] at hstep
      obtain ⟨hr, hst, -⟩ := hstep
      subst hr
      subst hst
      exact ⟨fun _ => Or.inl rfl, fun hne => absurd rfl hne⟩
    | some ch =>
      by_cases hcl : ch.is_closed
      · simp [coro_bus_send_v_step, hch, hcl] at hstep
        obtain ⟨hr, hst, -⟩ := hstep
        subst hr
        subst hst
        exact ⟨fun _ => Or.inl rfl, fun hne => absurd rfl hne⟩
      · by_cases hfull : ch.size_limit = ch.data.length
        · simp [coro_bus_send_v_step, coro_bus_try_send_v, hch, hcl, hfull] at hstep
        · have hk : ((sendLoop ch.data ch.size_limit buf).2 : Int) ≠ -1 := by omega
          simp [coro_bus_send_v_step, coro_bus_try_send_v, hch, hcl, hfull, hk] at hstep
          obtain ⟨hr, hst, -⟩ := hstep
          subst hr
          subst hst
          exact ⟨fun h => absurd h hk, fun _ => rfl⟩
  · intro st hstep
    cases hch : slotOf s.bus channel with
    | none => simp [coro_bus_send_v_step, hch] at hstep
    | some ch =>
      by_cases hcl : ch.is_closed
      · simp [coro_bus_send_v_step, hch, hcl] at hstep
      · by_cases hfull : ch.size_limit = ch.data.length
        · simp [coro_bus_send_v_step, coro_bus_try_send_v, hch, hcl, hfull] at hstep
          subst hstep
          rw [linkSend_errno]
        · have hk : ((sendLoop ch.data ch.size_limit buf).2 : Int) ≠ -1 := by omega
          simp [coro_bus_send_v_step, coro_bus_try_send_v, hch, hcl, hfull, hk] at hstep
  · intro r st evs hstep
    cases hch : slotOf s.bus channel with
    | none =>
      simp [coro_bus_recv_v_step, hch] at hstep
      obtain ⟨hr, hst, -⟩ := hstep
      subst hr
      subst hst
      exact ⟨fun _ => Or.inl rfl, fun hne => absurd rfl hne⟩
    | some ch =>
      by_cases hcl : ch.is_closed
      · simp [coro_bus_recv_v_step, hch, hcl] at hstep
        obtain ⟨hr, hst, -⟩ := hstep
        subst hr
        subst hst
        exact ⟨fun _ => Or.inl rfl, fun hne => absurd rfl hne⟩
      · by_cases hdata : ch.data = []
        · simp [coro_bus_recv_v_step, coro_bus_try_recv_v, hch, hcl, hdata] at hstep
        · have hk : (((recvLoop ch.data cap).1.length : Nat) : Int) ≠ -1 := by omega
          simp [coro_bus_recv_v_step, coro_bus_try_recv_v, hch, hcl, hdata, hk] at hstep
          obtain ⟨hr, hst, -⟩ := hstep
          subst hr
          subst hst
          exact ⟨fun h => absurd h hk, fun _ => rfl⟩
  · intro st hstep
    cases hch : slotOf s.bus channel with
    | none => simp [coro_bus_recv_v_step, hch] at hstep
    | some ch =>
      by_cases hcl : ch.is_closed
      · simp [coro_bus_recv_v_step, hch, hcl] at hstep
      · by_cases hdata : ch.data = []
        · simp [coro_bus_recv_v_step, coro_bus_try_recv_v, hch, hcl, hdata] at hstep
          subst hstep
          rw [linkRecv_errno]
        · have hk : (((recvLoop ch.data cap).1.length : Nat) : Int) ≠ -1 := by omega
          simp [coro_bus_recv_v_step, coro_bus_try_recv_v, hch, hcl, hdata, hk] at hstep
  · intro r st evs hstep
    by_cases hany : ((liveChannels s.bus).any fun ch => ch.size_limit ≤ ch.data.length) = true
    · cases hf : findBlockingCh s.bus with
      | none =>
        simp [coro_bus_broadcast_step, coro_bus_try_broadcast, hany, hf] at hstep
        obtain ⟨hr, hst, -⟩ := hstep
        subst hr
        subst hst
        exact ⟨fun _ => Or.inr rfl, fun hne => absurd rfl hne⟩
      | some i =>
        simp [coro_bus_broadcast_step, coro_bus_try_broadcast, hany, hf] at hstep
    · by_cases hnil : liveChannels s.bus = []
      · simp [coro_bus_broadcast_step, coro_bus_try_broadcast, hany, hnil] at hstep
        obtain ⟨hr, hst, -⟩ := hstep
        subst hr
        subst hst
        exact ⟨fun _ => Or.inl rfl, fun hne => absurd rfl hne⟩
      · simp [coro_bus_broadcast_step, coro_bus_try_broadcast, hany, hnil] at hstep
        obtain ⟨hr, hst, -⟩ := hstep
        subst hr
        subst hst
        exact ⟨fun h => absurd h (by decide), fun _ => rfl⟩
  · intro st hstep
    by_cases hany : ((liveChannels s.bus).any fun ch => ch.size_limit ≤ ch.data.length) = true
    · cases hf : findBlockingCh s.bus with
      | none => simp [coro_bus_broadcast_step, coro_bus_try_broadcast, hany, hf] at hstep
      | some i =>
        simp [coro_bus_broadcast_step, coro_bus_try_broadcast, hany, hf] at hstep
        subst hstep
        rw [linkSend_errno]
    · by_cases hnil : liveChannels s.bus = []
      · simp [coro_bus_broadcast_step, coro_bus_try_broadcast, hany, hnil] at hstep
      · simp [coro_bus_broadcast_step, coro_bus_try_broadcast, hany, hnil] at hstep

/-- C9 witness: on a one-channel bus whose error slot holds `WOULD_BLOCK`, a
successful `try_send` leaves the slot as `WOULD_BLOCK`; and an iteration
of blocking `send` that suspends on a full channel records `WOULD_BLOCK`
in the slot. -/
theorem C9_witness :
    (coro_bus_try_send ⟨⟨[some ⟨2, [], [], [], false⟩]⟩, .WOULD_BLOCK⟩ 0 7).st.errno =
      ErrCode.WOULD_BLOCK ∧
    (⟨⟨[some ⟨1, [4], [], [5], false⟩]⟩, ErrCode.WOULD_BLOCK⟩ : GState).errno =
      ErrCode.WOULD_BLOCK :=
  ⟨(C9_amended ⟨⟨[some ⟨2, [], [], [], false⟩]⟩, .WOULD_BLOCK⟩ 0 7 [] 0 0 4).1.2
      (by decide),
    (C9_amended ⟨⟨[some ⟨1, [], [], [5], false⟩]⟩, .NONE⟩ 0 9 [] 0 0
        4).2.2.2.2.2.2.2.2.1
      ⟨⟨[some ⟨1, [4], [], [5], false⟩]⟩, .WOULD_BLOCK⟩ (by decide)⟩

/-! ### Lemmas about `firstEmptySlot` and `coro_bus_channel_open` -/

theorem firstEmptySlot_empty :
    ∀ {l : List (Option Channel)} {i : Nat}, firstEmptySlot l = some i → l[i]? = some none := by
  intro l
  induction l with
  | nil => intro i h; simp [firstEmptySlot] at h
  | cons o rest ih =>
    intro i h
    cases o with
    | none =>
      simp [firstEmptySlot] at h
      subst h
      simp
    | some ch =>
      simp only [firstEmptySlot, Option.map_eq_some'] at h
      rcases h with ⟨j, hj, rfl⟩
      simpa using ih hj

theorem firstEmptySlot_min :
    ∀ {l : List (Option Channel)} {i : Nat}, firstEmptySlot l = some i →
      ∀ j < i, ∃ ch, l[j]? = some (some ch) := by
  intro l
  induction l with
  | nil => intro i h; simp [firstEmptySlot] at h
  | cons o rest ih =>
    intro i h j hj
    cases o with
    | none =>
      simp [firstEmptySlot] at h
      omega
    | some ch =>
      simp only [firstEmptySlot, Option.map_eq_some'] at h
      rcases h with ⟨k, hk, rfl⟩
      cases j with
      | zero => exact ⟨ch, by simp⟩
      | succ j' => simpa using ih hk j' (by omega)

theorem firstEmptySlot_le_length :
    ∀ {l : List (Option Channel)} {i : Nat}, firstEmptySlot l = some i → i < l.length := by
  intro l i h
  have := firstEmptySlot_empty h
  rcases List.getElem?_eq_some.mp this with ⟨hlt, _⟩
  exact hlt

theorem firstEmptySlot_of_lowest :
    ∀ {l : List (Option Channel)} {i : Nat}, l[i]? = some none →
      (∀ j < i, l[j]? ≠ some none) → firstEmptySlot l = some i := by
  intro l
  induction l with
  | nil => intro i h _; simp at h
  | cons o rest ih =>
    intro i h hlow
    cases i with
    | zero =>
      simp at h
      subst h
      rfl
    | succ i' =>
      cases o with
      | none => exact absurd (by simp) (hlow 0 (by omega))
      | some ch =>
        have hr : rest[i']? = some none := by simpa using h
        have hlow' : ∀ j < i', rest[j]? ≠ some none := by
          intro j hj hcon
          exact hlow (j + 1) (by omega) (by simpa using hcon)
        simp [firstEmptySlot, ih hr hlow']

theorem firstEmptySlot_none :
    ∀ {l : List (Option Channel)}, firstEmptySlot l = none →
      ∀ o ∈ l, ∃ ch, o = some ch := by
  intro l
  induction l with
  | nil => intro _ o ho; simp at ho
  | cons o0 rest ih =>
    intro h o ho
    cases o0 with
    | none => simp [firstEmptySlot] at h
    | some ch0 =>
      simp only [firstEmptySlot, Option.map_eq_none'] at h
      rcases List.mem_cons.mp ho with rfl | hmem
      · exact ⟨ch0, rfl⟩
      · exact ih h o hmem

/-- Full behavioral description of `coro_bus_channel_open`, shared by the
lifecycle claims: the returned id is non-negative, its slot now holds the
freshly initialized channel, it was the lowest empty slot of the old bus
(or one past the end), every other slot is untouched, and the error slot
is untouched. -/
theorem channel_open_spec (s : GState) (cap : Nat) :
    0 ≤ (coro_bus_channel_open s cap).1 ∧
    slotOf (coro_bus_channel_open s cap).2.bus (coro_bus_channel_open s cap).1 =
      some (freshChannel cap) ∧
    slotOf s.bus (coro_bus_channel_open s cap).1 = none ∧
    (∀ j : Int, 0 ≤ j → j < (coro_bus_channel_open s cap).1 →
      ∃ ch, slotOf s.bus j = some ch) ∧
    (coro_bus_channel_open s cap).1.toNat ≤ s.bus.channels.length ∧
    (∀ j : Int, j ≠ (coro_bus_channel_open s cap).1 →
      slotOf (coro_bus_channel_open s cap).2.bus j = slotOf s.bus j) ∧
    (coro_bus_channel_open s cap).2.errno = s.errno := by
  refine ⟨?_, ?_, ?_, ?_, ?_, ?_, ?_⟩
  · cases hfe : firstEmptySlot s.bus.channels with
    | some i => simp only [coro_bus_channel_open, hfe]; omega
    | none => simp only [coro_bus_channel_open, hfe]; omega
  · cases hfe : firstEmptySlot s.bus.channels with
    | some i =>
      have hlt := firstEmptySlot_le_length hfe
      simp only [coro_bus_channel_open, hfe]
      exact slotOf_setSlot_self' s.bus i _ hlt
    | none =>
      simp only [coro_bus_channel_open, hfe]
      rw [slotOf_eq, if_neg (by omega)]
      simp [List.getElem?_concat_length]
  · cases hfe : firstEmptySlot s.bus.channels with
    | some i =>
      have hempty := firstEmptySlot_empty hfe
      simp only [coro_bus_channel_open, hfe]
      rw [slotOf_eq, if_neg (by omega)]
      simp [hempty]
    | none =>
      simp only [coro_bus_channel_open, hfe]
      rw [slotOf_eq, if_neg (by omega)]
      have hn : s.bus.channels[((s.bus.channels.length : Int)).toNat]? = none :=
        List.getElem?_eq_none (by omega)
      simp [hn]
  · cases hfe : firstEmptySlot s.bus.channels with
    | some i =>
      simp only [coro_bus_channel_open, hfe]
      intro j hj0 hji
      rcases firstEmptySlot_min hfe j.toNat (by omega) with ⟨ch, hch⟩
      refine ⟨ch, ?_⟩
      rw [slotOf_eq, if_neg (by omega)]
      simp [hch]
    | none =>
      have hall : ∀ o ∈ s.bus.channels, ∃ ch, o = some ch := firstEmptySlot_none hfe
      simp only [coro_bus_channel_open, hfe]
      intro j hj0 hjlen
      have hjlt : j.toNat < s.bus.channels.length := by omega
      cases hg : s.bus.channels[j.toNat]? with
      | none =>
        rw [List.getElem?_eq_none_iff] at hg
        omega
      | some o =>
        have hmem : o ∈ s.bus.channels := by
          rcases List.getElem?_eq_some.mp hg with ⟨hlt, hval⟩
          exact hval ▸ List.getElem_mem hlt
        rcases hall o hmem with ⟨ch, rfl⟩
        refine ⟨ch, ?_⟩
        rw [slotOf_eq, if_neg (by omega)]
        simp [hg]
  · cases hfe : firstEmptySlot s.bus.channels with
    | some i =>
      have hlt := firstEmptySlot_le_length hfe
      simp only [coro_bus_channel_open, hfe]
      omega
    | none =>
      simp only [coro_bus_channel_open, hfe]
      omega
  · cases hfe : firstEmptySlot s.bus.channels with
    | some i =>
      simp only [coro_bus_channel_open, hfe]
      intro j hj
      exact slotOf_setSlot_ne' s.bus i _ j hj
    | none =>
      simp only [coro_bus_channel_open, hfe]
      intro j hj
      rw [slotOf_eq, slotOf_eq]
      by_cases hjneg : j < 0
      · simp [hjneg]
      · rw [if_neg hjneg, if_neg hjneg]
        rw [List.getElem?_append]
        by_cases hjlt : j.toNat < s.bus.channels.length
        · rw [if_pos hjlt]
        · rw [if_neg hjlt]
          rw [List.getElem?_eq_none (l := s.bus.channels) (by omega)]
          have h1 : 1 ≤ j.toNat - s.bus.channels.length := by omega
          rw [List.getElem?_eq_none (l := [some (freshChannel cap)]) (by simpa using h1)]
  · cases hfe : firstEmptySlot s.bus.channels with
    | some i => simp only [coro_bus_channel_open, hfe]
    | none => simp only [coro_bus_channel_open, hfe]

/-- C8: `channel_open` never fails: it returns a non-negative id whose slot
now holds a channel with the given capacity, empty queue, empty waiter
lists and `closed = false`; the returned slot was empty (or one past the
end, the append case), every lower-indexed slot was occupied (lowest-slot
reuse), and no other slot changes.  In particular, after `channel_close`
frees slot `i` and every slot below `i` is occupied, the next
`channel_open` returns `i`. -/
theorem C8 (s : GState) (cap : Nat) (i : Int) (ch : Channel) :
    (0 ≤ (coro_bus_channel_open s cap).1 ∧
      slotOf (coro_bus_channel_open s cap).2.bus (coro_bus_channel_open s cap).1 =
        some ⟨cap, [], [], [], false⟩ ∧
      slotOf s.bus (coro_bus_channel_open s cap).1 = none ∧
      (∀ j : Int, 0 ≤ j → j < (coro_bus_channel_open s cap).1 →
        ∃ ch', slotOf s.bus j = some ch') ∧
      (∀ j : Int, j ≠ (coro_bus_channel_open s cap).1 →
        slotOf (coro_bus_channel_open s cap).2.bus j = slotOf s.bus j)) ∧
    (slotOf s.bus i = some ch →
      (∀ j : Int, 0 ≤ j → j < i → slotOf s.bus j ≠ none) →
      (coro_bus_channel_open (coro_bus_channel_close s i).1 cap).1 = i) := by
  constructor
  · have h := channel_open_spec s cap
    exact ⟨h.1, h.2.1, h.2.2.1, h.2.2.2.1, h.2.2.2.2.2.1⟩
  · intro hch hlow
    have hnn := slotOf_some_nonneg hch
    have hlt := slotOf_some_lt hch
    have hclose : (coro_bus_channel_close s i).1 =
        { s with bus := setSlot s.bus i.toNat none } := by
      simp [coro_bus_channel_close, hch]
    rw [hclose]
    have hset : (setSlot s.bus i.toNat none).channels = s.bus.channels.set i.toNat none := rfl
    have hfe : firstEmptySlot (setSlot s.bus i.toNat none).channels = some i.toNat := by
      apply firstEmptySlot_of_lowest
      · rw [hset]
        exact List.getElem?_set_self hlt
      · intro j hj hcon
        have hne : i.toNat ≠ j := by omega
        rw [hset, List.getElem?_set_ne hne] at hcon
        have hzero : slotOf s.bus (j : Int) = none := by
          rw [slotOf_eq, if_neg (by omega)]
          simp [hcon]
        exact hlow (j : Int) (by omega) (by omega) hzero
    show (coro_bus_channel_open { s with bus := setSlot s.bus i.toNat none } cap).1 = i
    simp only [coro_bus_channel_open, hfe]
    omega

/-- C8 witness: on a bus with two open channels, closing channel 0 and
opening a new one yields id 0 again. -/
theorem C8_witness :
    (coro_bus_channel_open
      (coro_bus_channel_close
        ⟨⟨[some ⟨1, [], [], [], false⟩, some ⟨2, [], [], [], false⟩]⟩, .NONE⟩ 0).1 5).1 = 0 :=
  (C8 ⟨⟨[some ⟨1, [], [], [], false⟩, some ⟨2, [], [], [], false⟩]⟩, .NONE⟩ 5 0
      ⟨1, [], [], [], false⟩).2
    (by decide) (fun j h0 hl => absurd hl (by omega))

/-- C10: `channel_open` accepts capacity 0 and returns a slot index holding
the capacity-0 channel; on such a channel (while it is open and its queue
respects the capacity bound, hence is empty) every `try_send` fails with
`WOULD_BLOCK` (the full-check compares `size_limit` with the queue length,
both 0) with no mutation besides the error slot, and every `try_recv`
fails with `WOULD_BLOCK` likewise, so no message can pass through. -/
theorem C10 (s : GState) (channel : Int) (ch : Channel) (v : Nat) :
    (0 ≤ (coro_bus_channel_open s 0).1 ∧
      slotOf (coro_bus_channel_open s 0).2.bus (coro_bus_channel_open s 0).1 =
        some ⟨0, [], [], [], false⟩) ∧
    (slotOf s.bus channel = some ch → ch.size_limit = 0 → ch.is_closed = false →
      busInv s.bus →
      coro_bus_try_send s channel v = ⟨-1, { s with errno := .WOULD_BLOCK }, []⟩ ∧
      coro_bus_try_recv s channel = ⟨-1, none, { s with errno := .WOULD_BLOCK }, []⟩) := by
  constructor
  · exact ⟨(channel_open_spec s 0).1, (channel_open_spec s 0).2.1⟩
  · intro hch hcap hopen hinv
    have hle := busInv_some hinv hch
    have hempty : ch.data = [] := by
      rw [← List.length_eq_zero]
      omega
    constructor
    · have hguard : ch.size_limit = ch.data.length := by
        rw [hempty, hcap]
        rfl
      simp [coro_bus_try_send, hch, hguard]
    · simp [coro_bus_try_recv, hch, hempty]

/-- C10 witness: the theorem applied to a one-channel bus whose channel has
capacity 0. -/
theorem C10_witness :
    coro_bus_try_send ⟨⟨[some ⟨0, [], [], [], false⟩]⟩, .NONE⟩ 0 7 =
      ⟨-1, ⟨⟨[some ⟨0, [], [], [], false⟩]⟩, .WOULD_BLOCK⟩, []⟩ ∧
    coro_bus_try_recv ⟨⟨[some ⟨0, [], [], [], false⟩]⟩, .NONE⟩ 0 =
      ⟨-1, none, ⟨⟨[some ⟨0, [], [], [], false⟩]⟩, .WOULD_BLOCK⟩, []⟩ :=
  (C10 ⟨⟨[some ⟨0, [], [], [], false⟩]⟩, .NONE⟩ 0 ⟨0, [], [], [], false⟩ 7).2
    (by decide) rfl rfl
    (by
      intro o ho ch hch
      simp at ho
      rw [ho] at hch
      cases hch
      decide)

theorem slotOf_broadcast (bus : Bus) (v : Nat) (channel : Int) :
    slotOf ⟨bus.channels.map (broadcastSlot v)⟩ channel =
      broadcastSlot v (slotOf bus channel) := by
  rw [slotOf_eq, slotOf_eq]
  by_cases hneg : channel < 0
  · simp [hneg, broadcastSlot]
  · rw [if_neg hneg, if_neg hneg]
    show (bus.channels.map (broadcastSlot v))[channel.toNat]?.getD none = _
    rw [List.getElem?_map]
    cases bus.channels[channel.toNat]? with
    | none => simp [broadcastSlot]
    | some o => simp

/-- C3: `try_broadcast` is all-or-nothing.  If every slot is empty or closed
(no live channel) it fails `NO_CHANNEL` with no mutation; if some live
channel is full it fails `WOULD_BLOCK` with no mutation; otherwise it
returns 0 and appends `v` to the queue of exactly the live channels
(raising each such queue length by one), leaving closed channels, empty
slots and the error slot untouched. -/
theorem C3 (s : GState) (v : Nat) :
    ((∀ ch : Channel, some ch ∈ s.bus.channels → ch.is_closed = true) →
      coro_bus_try_broadcast s v = ⟨-1, { s with errno := .NO_CHANNEL }, []⟩) ∧
    ((∃ ch : Channel, some ch ∈ s.bus.channels ∧ ch.is_closed = false ∧
        ch.size_limit ≤ ch.data.length) →
      coro_bus_try_broadcast s v = ⟨-1, { s with errno := .WOULD_BLOCK }, []⟩) ∧
    ((∃ ch : Channel, some ch ∈ s.bus.channels ∧ ch.is_closed = false) →
      (∀ ch : Channel, some ch ∈ s.bus.channels → ch.is_closed = false →
        ch.data.length < ch.size_limit) →
      (coro_bus_try_broadcast s v).ret = 0 ∧
      (coro_bus_try_broadcast s v).st.errno = s.errno ∧
      (∀ channel : Int, ∀ ch : Channel, slotOf s.bus channel = some ch →
        (ch.is_closed = false →
          slotOf (coro_bus_try_broadcast s v).st.bus channel =
            some { ch with data := ch.data ++ [v] }) ∧
        (ch.is_closed = true →
          slotOf (coro_bus_try_broadcast s v).st.bus channel = some ch)) ∧
      (∀ channel : Int, slotOf s.bus channel = none →
        slotOf (coro_bus_try_broadcast s v).st.bus channel = none)) := by
  refine ⟨?_, ?_, ?_⟩
  · intro hno
    have hnil : liveChannels s.bus = [] := liveChannels_nil_iff.mpr hno
    simp [coro_bus_try_broadcast, hnil]
  · intro hfull
    have hany := liveChannels_any_full_iff.mpr hfull
    simp [coro_bus_try_broadcast, hany]
  · intro hlive hnf
    have hany : ((liveChannels s.bus).any fun ch => ch.size_limit ≤ ch.data.length) = false := by
      rw [Bool.eq_false_iff]
      intro hcon
      rcases liveChannels_any_full_iff.mp hcon with ⟨ch, hmem, hcl, hge⟩
      have := hnf ch hmem hcl
      omega
    have hnil : ¬ liveChannels s.bus = [] := by
      rcases hlive with ⟨ch, hmem, hcl⟩
      intro hcon
      have := liveChannels_nil_iff.mp hcon ch hmem
      rw [this] at hcl
      cases hcl
    have hres : coro_bus_try_broadcast s v =
        ⟨0, { s with bus := ⟨s.bus.channels.map (broadcastSlot v)⟩ }, broadcastEvs s.bus⟩ := by
      simp [coro_bus_try_broadcast, hany, hnil]
    rw [hres]
    refine ⟨rfl, rfl, ?_, ?_⟩
    · intro channel ch hch
      constructor
      · intro hcl
        show slotOf ⟨s.bus.channels.map (broadcastSlot v)⟩ channel = _
        rw [slotOf_broadcast, hch]
        simp [broadcastSlot, hcl]
      · intro hcl
        show slotOf ⟨s.bus.channels.map (broadcastSlot v)⟩ channel = _
        rw [slotOf_broadcast, hch]
        simp [broadcastSlot, hcl]
    · intro channel hch
      show slotOf ⟨s.bus.channels.map (broadcastSlot v)⟩ channel = _
      rw [slotOf_broadcast, hch]
      rfl

/-- C3 witness: on a bus with no channels at all, `try_broadcast` fails
`NO_CHANNEL` and mutates nothing. -/
theorem C3_witness :
    coro_bus_try_broadcast ⟨⟨[]⟩, .NONE⟩ 7 = ⟨-1, ⟨⟨[]⟩, .NO_CHANNEL⟩, []⟩ :=
  (C3 ⟨⟨[]⟩, .NONE⟩ 7).1 (fun ch h => absurd h (by simp))

/-- C5, counterexample: `coro_bus_channel_close` does not no-op on an
already-closed channel still in its slot (a state constructible in the
model; in the source it exists during the close yield window): it wakes
the linked waiter again, yields, and empties the slot. -/
theorem C5_counterexample :
    coro_bus_channel_close ⟨⟨[some ⟨1, [3], [], [], true⟩]⟩, .NONE⟩ 0 =
      (⟨⟨[none]⟩, .NONE⟩, [Event.wake 3, Event.yld]) ∧
    coro_bus_channel_close ⟨⟨[some ⟨1, [3], [], [], true⟩]⟩, .NONE⟩ 0 ≠
      (⟨⟨[some ⟨1, [3], [], [], true⟩]⟩, .NONE⟩, []) := by
  decide

/-- C5, amended: `channel_close` silently no-ops on an invalid id or an
empty slot (only; the already-closed check does not exist — the code
re-runs the close protocol on a closed channel still in its slot).  On an
occupied slot it schedules every waiter currently linked in `send_waiters`
and `recv_waiters` for wakeup exactly once, yields exactly once and as the
last event, and destroys the channel, emptying its slot and touching no
other slot and not the error slot. -/
theorem C5_amended (s : GState) (channel : Int) (ch : Channel) :
    (slotOf s.bus channel = none → coro_bus_channel_close s channel = (s, [])) ∧
    (slotOf s.bus channel = some ch →
      slotOf (coro_bus_channel_close s channel).1.bus channel = none ∧
      (∀ j : Int, j ≠ channel →
        slotOf (coro_bus_channel_close s channel).1.bus j = slotOf s.bus j) ∧
      (coro_bus_channel_close s channel).1.errno = s.errno ∧
      (∀ c : Nat, (coro_bus_channel_close s channel).2.count (Event.wake c) =
        ch.send_queue.count c + ch.recv_queue.count c) ∧
      (coro_bus_channel_close s channel).2.count Event.yld = 1 ∧
      (coro_bus_channel_close s channel).2.getLast? = some Event.yld) := by
  constructor
  · intro hnone
    simp [coro_bus_channel_close, hnone]
  · intro hch
    have hinj : Function.Injective Event.wake := fun a b h => by injection h
    have hres : coro_bus_channel_close s channel =
        ({ s with bus := setSlot s.bus channel.toNat none },
          ch.send_queue.map Event.wake ++ ch.recv_queue.map Event.wake ++ [Event.yld]) := by
      simp [coro_bus_channel_close, hch]
    rw [hres]
    refine ⟨slotOf_setSlot_self _ hch, ?_, rfl, ?_, ?_, ?_⟩
    · intro j hj
      exact slotOf_setSlot_ne _ hch hj
    · intro c
      rw [List.count_append, List.count_append]
      rw [List.count_map_of_injective _ _ hinj, List.count_map_of_injective _ _ hinj]
      have hz : List.count (Event.wake c) [Event.yld] = 0 :=
        List.count_eq_zero.mpr (by simp)
      rw [hz]
      omega
    · rw [List.count_append, List.count_append]
      have hz1 : List.count Event.yld (ch.send_queue.map Event.wake) = 0 :=
        List.count_eq_zero.mpr (by simp)
      have hz2 : List.count Event.yld (ch.recv_queue.map Event.wake) = 0 :=
        List.count_eq_zero.mpr (by simp)
      rw [hz1, hz2]
      rfl
    · show (ch.send_queue.map Event.wake ++ ch.recv_queue.map Event.wake ++
          [Event.yld]).getLast? = some Event.yld
      exact List.getLast?_concat _

/-- C5 witness: the amended theorem applied to an open channel with one
send-waiter (id 4) and one recv-waiter (id 7). -/
theorem C5_witness :
    (coro_bus_channel_close ⟨⟨[some ⟨1, [4], [7], [], false⟩]⟩, .NONE⟩ 0).2.count
      (Event.wake 4) = 1 ∧
    (coro_bus_channel_close ⟨⟨[some ⟨1, [4], [7], [], false⟩]⟩, .NONE⟩ 0).2.count
      Event.yld = 1 ∧
    slotOf (coro_bus_channel_close ⟨⟨[some ⟨1, [4], [7], [], false⟩]⟩, .NONE⟩ 0).1.bus
      0 = none :=
  have h := (C5_amended ⟨⟨[some ⟨1, [4], [7], [], false⟩]⟩, .NONE⟩ 0
    ⟨1, [4], [7], [], false⟩).2 (by decide)
  ⟨by have hc := h.2.2.2.1 4; simpa using hc, h.2.2.2.2.1, h.1⟩

theorem findBlockingCh_ne_none {bus : Bus} {ch : Channel}
    (hmem : some ch ∈ bus.channels) (hcl : ch.is_closed = false)
    (heq : ch.size_limit = ch.data.length) : findBlockingCh bus ≠ none := by
  intro hcon
  rw [findBlockingCh, List.findIdx?_eq_none_iff] at hcon
  have hp := hcon (some ch) hmem
  simp [hcl, heq] at hp

/-- C7: whenever one iteration of a blocking operation (`send`, `recv`,
`send_v`, `recv_v`, `broadcast`) returns -1 to the caller, the error slot
at that return holds `NO_CHANNEL`, never `WOULD_BLOCK`: a `WOULD_BLOCK`
from the inner try-operation only drives the suspend path.  (The
queue-bound invariant is needed for `broadcast`: its rescan-for-a-full-
channel uses `==` where `try_broadcast` used `>=`.) -/
theorem C7 (s : GState) (channel : Int) (v : Nat) (self : Nat) (cap : Nat)
    (buf : List Nat) (hinv : busInv s.bus) :
    (∀ r st evs, coro_bus_send_step s channel v self = .ret r st evs → r = -1 →
      st.errno = .NO_CHANNEL) ∧
    (∀ r st evs, coro_bus_recv_step s channel self = .ret r st evs → r = -1 →
      st.errno = .NO_CHANNEL) ∧
    (∀ r st evs, coro_bus_send_v_step s channel buf self = .ret r st evs → r = -1 →
      st.errno = .NO_CHANNEL) ∧
    (∀ r st evs, coro_bus_recv_v_step s channel cap self = .ret r st evs → r = -1 →
      st.errno = .NO_CHANNEL) ∧
    (∀ r st evs, coro_bus_broadcast_step s v self = .ret r st evs → r = -1 →
      st.errno = .NO_CHANNEL) := by
  refine ⟨?_, ?_, ?_, ?_, ?_⟩
  · intro r st evs hstep hr
    subst hr
    cases hch : slotOf s.bus channel with
    | none =>
      simp [coro_bus_send_step, hch] at hstep
      rw [← hstep.1]
    | some ch =>
      by_cases hcl : ch.is_closed
      · simp [coro_bus_send_step, hch, hcl] at hstep
        rw [← hstep.1]
      · by_cases hfull : ch.size_limit = ch.data.length
        · simp [coro_bus_send_step, coro_bus_try_send, hch, hcl, hfull] at hstep
        · simp [coro_bus_send_step, coro_bus_try_send, hch, hcl, hfull] at hstep
  · intro r st evs hstep hr
    subst hr
    cases hch : slotOf s.bus channel with
    | none =>
      simp [coro_bus_recv_step, hch] at hstep
      rw [← hstep.1]
    | some ch =>
      by_cases hcl : ch.is_closed
      · simp [coro_bus_recv_step, hch, hcl] at hstep
        rw [← hstep.1]
      · cases hdata : ch.data with
        | nil => simp [coro_bus_recv_step, coro_bus_try_recv, hch, hcl, hdata] at hstep
        | cons a rest =>
          simp [coro_bus_recv_step, coro_bus_try_recv, hch, hcl, hdata] at hstep
  · intro r st evs hstep hr
    subst hr
    cases hch : slotOf s.bus channel with
    | none =>
      simp [coro_bus_send_v_step, hch] at hstep
      rw [← hstep.1]
    | some ch =>
      by_cases hcl : ch.is_closed
      · simp [coro_bus_send_v_step, hch, hcl] at hstep
        rw [← hstep.1]
      · by_cases hfull : ch.size_limit = ch.data.length
        · simp [coro_bus_send_v_step, coro_bus_try_send_v, hch, hcl, hfull] at hstep
        · have hk : ((sendLoop ch.data ch.size_limit buf).2 : Int) ≠ -1 := by omega
          simp [coro_bus_send_v_step, coro_bus_try_send_v, hch, hcl, hfull, hk] at hstep
  · intro r st evs hstep hr
    subst hr
    cases hch : slotOf s.bus channel with
    | none =>
      simp [coro_bus_recv_v_step, hch] at hstep
      rw [← hstep.1]
    | some ch =>
      by_cases hcl : ch.is_closed
      · simp [coro_bus_recv_v_step, hch, hcl] at hstep
        rw [← hstep.1]
      · by_cases hdata : ch.data = []
        · simp [coro_bus_recv_v_step, coro_bus_try_recv_v, hch, hcl, hdata] at hstep
        · have hk : (((recvLoop ch.data cap).1.length : Nat) : Int) ≠ -1 := by omega
          simp [coro_bus_recv_v_step, coro_bus_try_recv_v, hch, hcl, hdata, hk] at hstep
  · intro r st evs hstep hr
    subst hr
    by_cases hany : ((liveChannels s.bus).any fun ch => ch.size_limit ≤ ch.data.length) = true
    · rcases liveChannels_any_full_iff.mp hany with ⟨ch, hmem, hcl, hge⟩
      have hle := hinv (some ch) hmem ch rfl
      have heq : ch.size_limit = ch.data.length := by omega
      have hfind := findBlockingCh_ne_none hmem hcl heq
      cases hf : findBlockingCh s.bus with
      | none => exact absurd hf hfind
      | some i =>
        simp [coro_bus_broadcast_step, coro_bus_try_broadcast, hany, hf] at hstep
    · by_cases hnil : liveChannels s.bus = []
      · simp [coro_bus_broadcast_step, coro_bus_try_broadcast, hany, hnil] at hstep
        rw [← hstep.1]
      · simp [coro_bus_broadcast_step, coro_bus_try_broadcast, hany, hnil] at hstep

/-- C7 witness: one iteration of blocking `send` on a bus with no channels
returns -1 with the error slot holding `NO_CHANNEL`. -/
theorem C7_witness :
    (⟨⟨[]⟩, ErrCode.NO_CHANNEL⟩ : GState).errno = ErrCode.NO_CHANNEL :=
  (C7 ⟨⟨[]⟩, .NONE⟩ 0 5 1 2 [] (fun o ho => absurd ho (by simp))).1
    (-1) ⟨⟨[]⟩, .NO_CHANNEL⟩ [] rfl rfl

/-! ### Preservation of the bounded-queue invariant -/

theorem getD_some_mem {l : List (Option Channel)} {i : Nat} {ch : Channel}
    (h : l.getD i none = some ch) : some ch ∈ l := by
  rw [List.getD_eq_getElem?_getD] at h
  cases hg : l[i]? with
  | none => rw [hg] at h; simp at h
  | some o =>
    rw [hg] at h
    simp at h
    subst h
    rcases List.getElem?_eq_some.mp hg with ⟨hlt, hval⟩
    exact hval ▸ List.getElem_mem hlt

theorem busInv_try_send (s : GState) (channel : Int) (v : Nat) (h : busInv s.bus) :
    busInv (coro_bus_try_send s channel v).st.bus := by
  cases hch : slotOf s.bus channel with
  | none => simpa [coro_bus_try_send, hch] using h
  | some ch =>
    by_cases hfull : ch.size_limit = ch.data.length
    · simpa [coro_bus_try_send, hch, hfull] using h
    · have hle := busInv_some h hch
      have hres : (coro_bus_try_send s channel v).st.bus =
          setSlot s.bus channel.toNat (some { ch with data := ch.data ++ [v] }) := by
        simp [coro_bus_try_send, hch, hfull]
      rw [hres]
      apply busInv_setSlot h
      intro ch' hch'
      cases hch'
      simp
      omega

theorem busInv_try_recv (s : GState) (channel : Int) (h : busInv s.bus) :
    busInv (coro_bus_try_recv s channel).st.bus := by
  cases hch : slotOf s.bus channel with
  | none => simpa [coro_bus_try_recv, hch] using h
  | some ch =>
    cases hdata : ch.data with
    | nil => simpa [coro_bus_try_recv, hch, hdata] using h
    | cons a rest =>
      have hle := busInv_some h hch
      have hres : (coro_bus_try_recv s channel).st.bus =
          setSlot s.bus channel.toNat (some { ch with data := rest }) := by
        simp [coro_bus_try_recv, hch, hdata]
      rw [hres]
      apply busInv_setSlot h
      intro ch' hch'
      cases hch'
      simp
      rw [hdata] at hle
      simp at hle
      omega

theorem busInv_try_broadcast (s : GState) (v : Nat) (h : busInv s.bus) :
    busInv (coro_bus_try_broadcast s v).st.bus := by
  by_cases hany : ((liveChannels s.bus).any fun ch => ch.size_limit ≤ ch.data.length) = true
  · simpa [coro_bus_try_broadcast, hany] using h
  · by_cases hnil : liveChannels s.bus = []
    · simpa [coro_bus_try_broadcast, hany, hnil] using h
    · have hres : (coro_bus_try_broadcast s v).st.bus =
          ⟨s.bus.channels.map (broadcastSlot v)⟩ := by
        simp [coro_bus_try_broadcast, hany, hnil]
      rw [hres]
      intro o ho
      rcases List.mem_map.mp ho with ⟨o0, ho0, rfl⟩
      intro ch hch
      cases o0 with
      | none => cases hch
      | some ch0 =>
        by_cases hcl : ch0.is_closed
        · simp [broadcastSlot, hcl] at hch
          rw [← hch]
          exact h (some ch0) ho0 ch0 rfl
        · simp [broadcastSlot, hcl] at hch
          have hlt : ¬ (ch0.size_limit ≤ ch0.data.length) := by
            intro hge
            exact hany (liveChannels_any_full_iff.mpr
              ⟨ch0, ho0, by simpa using hcl, hge⟩)
          rw [← hch]
          simp
          omega

theorem busInv_try_send_v (s : GState) (channel : Int) (buf : List Nat)
    (h : busInv s.bus) : busInv (coro_bus_try_send_v s channel buf).st.bus := by
  cases hch : slotOf s.bus channel with
  | none => simpa [coro_bus_try_send_v, hch] using h
  | some ch =>
    by_cases hfull : ch.size_limit = ch.data.length
    · simpa [coro_bus_try_send_v, hch, hfull] using h
    · have hle := busInv_some h hch
      have hspec := sendLoop_spec ch.size_limit buf ch.data hle
      have hres : (coro_bus_try_send_v s channel buf).st.bus =
          setSlot s.bus channel.toNat
            (some { ch with data := (sendLoop ch.data ch.size_limit buf).1 }) := by
        simp [coro_bus_try_send_v, hch, hfull]
      rw [hres]
      apply busInv_setSlot h
      intro ch' hch'
      cases hch'
      simp [hspec]
      omega

theorem busInv_try_recv_v (s : GState) (channel : Int) (cap : Nat)
    (h : busInv s.bus) : busInv (coro_bus_try_recv_v s channel cap).st.bus := by
  cases hch : slotOf s.bus channel with
  | none => simpa [coro_bus_try_recv_v, hch] using h
  | some ch =>
    by_cases hdata : ch.data = []
    · simpa [coro_bus_try_recv_v, hch, hdata] using h
    · have hle := busInv_some h hch
      have hspec := recvLoop_spec cap ch.data
      have hres : (coro_bus_try_recv_v s channel cap).st.bus =
          setSlot s.bus channel.toNat
            (some { ch with data := (recvLoop ch.data cap).2 }) := by
        simp [coro_bus_try_recv_v, hch, hdata]
      rw [hres]
      apply busInv_setSlot h
      intro ch' hch'
      cases hch'
      simp [hspec]
      have := List.length_drop cap ch.data
      omega

theorem busInv_linkSend (s : GState) (i : Nat) (self : Nat) (h : busInv s.bus) :
    busInv (linkSend s i self).bus := by
  unfold linkSend
  cases hg : s.bus.channels.getD i none with
  | none => exact h
  | some ch =>
    apply busInv_setSlot h
    intro ch' hch'
    cases hch'
    exact h (some ch) (getD_some_mem hg) ch rfl

theorem busInv_linkRecv (s : GState) (i : Nat) (self : Nat) (h : busInv s.bus) :
    busInv (linkRecv s i self).bus := by
  unfold linkRecv
  cases hg : s.bus.channels.getD i none with
  | none => exact h
  | some ch =>
    apply busInv_setSlot h
    intro ch' hch'
    cases hch'
    exact h (some ch) (getD_some_mem hg) ch rfl

theorem busInv_unlinkSend (s : GState) (channel : Int) (self : Nat) (h : busInv s.bus) :
    busInv (unlinkSendOp s channel self).bus := by
  unfold unlinkSendOp
  cases hg : slotOf s.bus channel with
  | none => exact h
  | some ch =>
    apply busInv_setSlot h
    intro ch' hch'
    cases hch'
    simpa using busInv_some h hg

theorem busInv_unlinkRecv (s : GState) (channel : Int) (self : Nat) (h : busInv s.bus) :
    busInv (unlinkRecvOp s channel self).bus := by
  unfold unlinkRecvOp
  cases hg : slotOf s.bus channel with
  | none => exact h
  | some ch =>
    apply busInv_setSlot h
    intro ch' hch'
    cases hch'
    simpa using busInv_some h hg

theorem busInv_open (s : GState) (limit : Nat) (h : busInv s.bus) :
    busInv (coro_bus_channel_open s limit).2.bus := by
  unfold coro_bus_channel_open
  cases hfe : firstEmptySlot s.bus.channels with
  | some i =>
    apply busInv_setSlot h
    intro ch hch
    cases hch
    simp [freshChannel]
  | none =>
    intro o ho
    rcases List.mem_append.mp ho with hmem | hmem
    · exact h o hmem
    · simp at hmem
      subst hmem
      intro ch hch
      cases hch
      simp [freshChannel]

theorem busInv_close (s : GState) (channel : Int) (h : busInv s.bus) :
    busInv (coro_bus_channel_close s channel).1.bus := by
  unfold coro_bus_channel_close
  cases hch : slotOf s.bus channel with
  | none => exact h
  | some ch =>
    apply busInv_setSlot h
    intro ch' hch'
    cases hch'

theorem busInv_send_step (s : GState) (channel : Int) (v : Nat) (self : Nat)
    (h : busInv s.bus) : busInv (coro_bus_send_step s channel v self).state.bus := by
  unfold coro_bus_send_step
  cases hch : slotOf s.bus channel with
  | none => exact h
  | some ch =>
    dsimp only
    split
    · exact h
    · split
      · exact busInv_try_send s channel v h
      · split
        · exact busInv_linkSend _ _ _ (busInv_try_send s channel v h)
        · exact busInv_try_send s channel v h

theorem busInv_recv_step (s : GState) (channel : Int) (self : Nat)
    (h : busInv s.bus) : busInv (coro_bus_recv_step s channel self).state.bus := by
  unfold coro_bus_recv_step
  cases hch : slotOf s.bus channel with
  | none => exact h
  | some ch =>
    dsimp only
    split
    · exact h
    · split
      · exact busInv_try_recv s channel h
      · split
        · exact busInv_linkRecv _ _ _ (busInv_try_recv s channel h)
        · exact busInv_try_recv s channel h

theorem busInv_send_v_step (s : GState) (channel : Int) (buf : List Nat) (self : Nat)
    (h : busInv s.bus) : busInv (coro_bus_send_v_step s channel buf self).state.bus := by
  unfold coro_bus_send_v_step
  cases hch : slotOf s.bus channel with
  | none => exact h
  | some ch =>
    dsimp only
    split
    · exact h
    · split
      · exact busInv_try_send_v s channel buf h
      · split
        · exact busInv_linkSend _ _ _ (busInv_try_send_v s channel buf h)
        · exact busInv_try_send_v s channel buf h

theorem busInv_recv_v_step (s : GState) (channel : Int) (cap : Nat) (self : Nat)
    (h : busInv s.bus) : busInv (coro_bus_recv_v_step s channel cap self).state.bus := by
  unfold coro_bus_recv_v_step
  cases hch : slotOf s.bus channel with
  | none => exact h
  | some ch =>
    dsimp only
    split
    · exact h
    · split
      · exact busInv_try_recv_v s channel cap h
      · split
        · exact busInv_linkRecv _ _ _ (busInv_try_recv_v s channel cap h)
        · exact busInv_try_recv_v s channel cap h

theorem busInv_broadcast_step (s : GState) (v : Nat) (self : Nat)
    (h : busInv s.bus) : busInv (coro_bus_broadcast_step s v self).state.bus := by
  unfold coro_bus_broadcast_step
  dsimp only
  split
  · exact busInv_try_broadcast s v h
  · split
    · split
      · exact busInv_try_broadcast s v h
      · exact busInv_linkSend _ _ _ (busInv_try_broadcast s v h)
    · exact busInv_try_broadcast s v h

theorem reachable_busInv {s : GState} (h : Reachable s) : busInv s.bus := by
  induction h with
  | init => intro o ho; simp [initState] at ho
  | step s' op _ ih =>
    cases op with
    | openCh limit => exact busInv_open s' limit ih
    | close channel => exact busInv_close s' channel ih
    | trySend channel v => exact busInv_try_send s' channel v ih
    | tryRecv channel => exact busInv_try_recv s' channel ih
    | tryBroadcast v => exact busInv_try_broadcast s' v ih
    | trySendV channel buf => exact busInv_try_send_v s' channel buf ih
    | tryRecvV channel cap => exact busInv_try_recv_v s' channel cap ih
    | sendStep channel v self => exact busInv_send_step s' channel v self ih
    | recvStep channel self => exact busInv_recv_step s' channel self ih
    | sendVStep channel buf self => exact busInv_send_v_step s' channel buf self ih
    | recvVStep channel cap self => exact busInv_recv_v_step s' channel cap self ih
    | broadcastStep v self => exact busInv_broadcast_step s' v self ih
    | unlinkSend channel self => exact busInv_unlinkSend s' channel self ih
    | unlinkRecv channel self => exact busInv_unlinkRecv s' channel self ih

/-- C4: in every state reachable from a fresh bus by any sequence of bus
operations (try-operations, blocking-loop iterations including their
suspend/unlink transitions, broadcast, open, close), every channel's queue
length is at most its capacity (invariant I1). -/
theorem C4 (s : GState) (hreach : Reachable s) (channel : Int) (ch : Channel)
    (hch : slotOf s.bus channel = some ch) :
    ch.data.length ≤ ch.size_limit :=
  busInv_some (reachable_busInv hreach) hch

/-- C4 witness: the invariant evaluated in the reachable state obtained by
opening a capacity-1 channel and try-sending one value. -/
theorem C4_witness :
    (Channel.mk 1 [] [] [7] false).data.length ≤
      (Channel.mk 1 [] [] [7] false).size_limit :=
  C4 _ (Reachable.step _ (Op.trySend 0 7) (Reachable.step _ (Op.openCh 1) Reachable.init))
    0 ⟨1, [], [], [7], false⟩ (by decide)

end Corobus
